import Mathlib

/-!
# Verification of the sandboxed file-search subsystem of `launch-rs`

Shallow embedding of `src/src-tauri/src/lib.rs` (the file-search core:
`sanitize_search_query`, `is_path_allowed`, `get_allowed_search_paths`,
`validate_and_normalize_search_path`, `search_directory`,
`calculate_relevance_score`, `search_files`).

Modelling choices, all driven by the source:
* Absolute paths are lists of components (`AbsPath`); a component is either a
  valid-UTF-8 name or an abstract non-UTF-8 byte name (`Comp.raw`), matching
  Rust's `OsStr` names for which `to_str()` returns `None`.
* The filesystem is a finite association list from absolute paths to nodes
  (`Fs`); nodes are files, directories (with an entry list and a readability
  flag modelling `fs::read_dir` failures, and a `metaOk` flag modelling
  `DirEntry::metadata` failures) or symlinks with absolute targets.
* `fs::canonicalize` / path resolution (`exists`, `is_dir`) is modelled by a
  fuel-bounded `realpath`-style resolver (`resolvePath`) that follows
  symlinks and resolves `.` and `..` components against the filesystem.
* Rust `char::is_alphanumeric`, `char::is_whitespace` (full Unicode tables)
  and `str::to_lowercase` are kept abstract: they are fields of the ambient
  `Env`, so every theorem holds for every instantiation of those tables.
  Lowercasing is a per-character *expansion* map `Char → List Char`, which
  covers Unicode's one-to-many lowercase mappings (e.g. `İ` → `i` followed
  by `U+0307`); concrete instantiations below use the real Unicode values
  on every character they involve.
* `f32` relevance scores are modelled by exact rationals; every constant the
  source manipulates (`100.0`, `80.0`, `60.0`, `20.0 / len`) is exactly
  representable for the lengths arising in the witnesses used here.  The
  length divisor is the UTF-8 byte length (`String.utf8ByteSize`), matching
  Rust `str::len`.
* `Result<_, String>` becomes `Option _` (the error text plays no role in any
  claim); `search_directory`'s `&mut Vec` accumulator becomes explicit state:
  the function returns the final accumulator together with a success flag,
  which keeps the source behaviour that pushes performed before an error
  survive at the caller (`let _ = search_directory(..)`).
-/

set_option linter.unusedVariables false

namespace LaunchRs

/-- A path component: a valid-UTF-8 name, or an abstract non-UTF-8 name
(identified by a `Nat`) for which Rust's `OsStr::to_str` returns `None`. -/
inductive Comp where
  | utf8 (s : String)
  | raw (id : Nat)
deriving DecidableEq, Repr

/-- An absolute path, as its list of components ( `[]` is `/`). -/
abbrev AbsPath := List Comp

/-- A filesystem node.  Directories carry their entry names, a `readable`
flag (`fs::read_dir` succeeds), metadata and a `metaOk` flag
(`DirEntry::metadata` succeeds).  Symlinks carry an absolute target; their
no-follow metadata is modelled as always readable, non-directory. -/
inductive FsNode where
  | file (size modified : Nat) (metaOk : Bool)
  | dir (entries : List Comp) (readable : Bool) (size modified : Nat) (metaOk : Bool)
  | symlink (target : AbsPath)
deriving DecidableEq, Repr

/-- A filesystem: a finite map from absolute paths to nodes. -/
abbrev Fs := List (AbsPath × FsNode)

/-- Raw node lookup (no symlink following). -/
def lookupRaw (fs : Fs) (p : AbsPath) : Option FsNode :=
  match fs with
  | [] => none
  | (q, n) :: rest => if q = p then some n else lookupRaw rest p

/-- Fuel-bounded `realpath`: resolve `rest` against the already-resolved
prefix `acc`, following symlinks and `.` / `..` components.  Returns `none`
when the path does not exist (or on symlink cycles, via fuel). -/
def resolveStep (fs : Fs) : Nat → AbsPath → List Comp → Option AbsPath
  | 0, _, _ => none
  | _ + 1, acc, [] => if (lookupRaw fs acc).isSome then some acc else none
  | fuel + 1, acc, c :: rest =>
    if c = Comp.utf8 "." then resolveStep fs fuel acc rest
    else if c = Comp.utf8 ".." then resolveStep fs fuel acc.dropLast rest
    else
      match lookupRaw fs (acc ++ [c]) with
      | some (.symlink target) => resolveStep fs fuel [] (target ++ rest)
      | some _ => resolveStep fs fuel (acc ++ [c]) rest
      | none => none

/-- Model of `fs::canonicalize` (and the symlink-following part of `Path::exists`,
`Path::is_dir`): full resolution of an absolute path. -/
def resolvePath (fs : Fs) (fuel : Nat) (p : AbsPath) : Option AbsPath :=
  resolveStep fs fuel [] p

/-- The ambient environment: the filesystem, the resolver fuel, the
platform directories returned by the `dirs` crate, and the Unicode tables
the source uses through `std` (`char::is_alphanumeric`,
`char::is_whitespace`, per-character `to_lowercase`). -/
structure Env where
  fs : Fs
  fuel : Nat
  lc : Char → List Char
  isAlnum : Char → Bool
  isWs : Char → Bool
  home : Option AbsPath
  documents : Option AbsPath
  downloads : Option AbsPath
  desktop : Option AbsPath

/-! ## String helpers (Rust `str` operations used by the source) -/

/-- Rust `str::starts_with` (also `Path::file_name`-level prefix tests). -/
def strStartsWith (s p : String) : Bool :=
  p.data.isPrefixOf s.data

/-- Substring containment on character lists. -/
def listContainsSub (l p : List Char) : Bool :=
  l.tails.any (fun t => p.isPrefixOf t)

/-- Rust `str::contains` (substring search). -/
def strContains (s p : String) : Bool :=
  listContainsSub s.data p.data

/-- Rust `str::to_lowercase`, as a per-character expansion through the
table `lc` (each character contributes the character list of its Unicode
lowercase mapping, which may have several characters). -/
def lowerStr (lc : Char → List Char) (s : String) : String :=
  ⟨s.data.flatMap lc⟩

/-- Rust `OsStr::to_str().unwrap_or("")`: the name of a component, the empty
string for a non-UTF-8 name. -/
def compName : Comp → String
  | .utf8 s => s
  | .raw _ => ""

/-- The hidden-entry test of `search_directory`:
`file_name.starts_with('.') || file_name.starts_with('~')`. -/
def isHidden (s : String) : Bool :=
  match s.data with
  | [] => false
  | c :: _ => c == '.' || c == '~'

/-! ## `sanitize_search_query` -/

/-- The character predicate of `sanitize_search_query` in
`src/src-tauri/src/lib.rs` (lines 243-251), with the two `std` Unicode
classifications abstracted as `isAlnum` / `isWs`. -/
def allowed_char (isAlnum isWs : Char → Bool) (c : Char) : Bool :=
  isAlnum c ||
  isWs c ||
  c == '_' || c == '-' || c == '.' ||
  c == '(' || c == ')' || c == '[' || c == ']' ||
  c == '{' || c == '}' || c == '+' || c == '=' ||
  (decide ('一' ≤ c) && decide (c ≤ '鿿'))

/-- Model of `sanitize_search_query`: `query.chars().filter(..).collect()`. -/
def sanitize_search_query (isAlnum isWs : Char → Bool) (q : String) : String :=
  ⟨q.data.filter (allowed_char isAlnum isWs)⟩

/-! ## `calculate_relevance_score` -/

/-- Model of `calculate_relevance_score` (lines 319-341), with `f32` modelled by `ℚ`.
Caller passes the lowercased file name and query, exactly as the source
does.  The length divisor `filename.len()` is Rust's UTF-8 *byte* length,
`String.utf8ByteSize` here, and `filename.is_empty()` is `filename = ""`. -/
def calculate_relevance_score (filename query : String) : ℚ :=
  let score : ℚ := 0
  let score : ℚ :=
    if filename = query then score + 100
    else if strStartsWith filename query then score + 80
    else if strContains filename query then score + 60
    else score
  if filename = "" then score else score + 20 / (filename.utf8ByteSize : ℚ)

/-! ## `get_allowed_search_paths` and `is_path_allowed` -/

/-- The `additional_safe_dirs` literal of `get_allowed_search_paths`:
`/tmp`, `/var/tmp`, `/Users/Shared`. -/
def additional_safe_dirs : List AbsPath :=
  [[Comp.utf8 "tmp"],
   [Comp.utf8 "var", Comp.utf8 "tmp"],
   [Comp.utf8 "Users", Comp.utf8 "Shared"]]

/-- Model of `get_allowed_search_paths` (lines 196-236): the four platform
directories when resolvable (pushed as returned by `dirs`, uncanonicalized),
plus each additional safe dir that exists, is a directory and
canonicalizes. -/
def get_allowed_search_paths (env : Env) : List AbsPath :=
  (env.home.toList ++ env.documents.toList ++
   env.downloads.toList ++ env.desktop.toList) ++
  additional_safe_dirs.filterMap (fun p =>
    match resolvePath env.fs env.fuel p with
    | some rp =>
      match lookupRaw env.fs rp with
      | some (.dir ..) => some rp
      | _ => none
    | none => none)

/-- Model of `is_path_allowed` (lines 182-193): `path.starts_with(&allowed_path)` for
some allowed path.  Rust `Path::starts_with` compares whole components, which
here is `List.isPrefixOf` on the component lists. -/
def is_path_allowed (allowed : List AbsPath) (p : AbsPath) : Bool :=
  allowed.any (fun a => a.isPrefixOf p)

/-! ## `validate_and_normalize_search_path` -/

/-- Model of `validate_and_normalize_search_path` (lines 149-179): default the path to
the home directory (or `/`), require existence and directory-ness (both
follow symlinks), canonicalize, and require containment in an allowed
root.  `Err` is collapsed to `none`. -/
def validate_and_normalize_search_path (env : Env) (search_path : Option AbsPath) :
    Option AbsPath :=
  let p := search_path.getD (env.home.getD [])
  match resolvePath env.fs env.fuel p with
  | none => none
  | some rp =>
    match lookupRaw env.fs rp with
    | some (.dir ..) =>
      if is_path_allowed (get_allowed_search_paths env) rp then some rp else none
    | _ => none

/-! ## `search_directory` -/

/-- A `FileSearchResult` (lines 16-23).  The `path` field, a `String` built
by `to_string_lossy` in the source, is kept as the component list that
string denotes. -/
structure FileSearchResult where
  name : String
  path : AbsPath
  is_dir : Bool
  size : Nat
  modified : Nat
deriving DecidableEq, Repr

/-- Model of `fs::read_dir(dir)`: resolve the path (following symlinks), require a
readable directory; returns the resolved path together with the entry
names. -/
def readDirM (env : Env) (p : AbsPath) : Option (AbsPath × List Comp) :=
  match resolvePath env.fs env.fuel p with
  | none => none
  | some rp =>
    match lookupRaw env.fs rp with
    | some (.dir entries readable _ _ _) =>
      if readable then some (rp, entries) else none
    | _ => none

/-- Model of `DirEntry::metadata()` (does not follow a final symlink): the
`(is_dir, size, modified)` triple, or `none` on failure. -/
def entryMeta (env : Env) (p : AbsPath) : Option (Bool × Nat × Nat) :=
  match lookupRaw env.fs p with
  | some (.file size modified ok) => if ok then some (false, size, modified) else none
  | some (.dir _ _ size modified ok) => if ok then some (true, size, modified) else none
  | some (.symlink _) => some (false, 0, 0)
  | none => none

/-- Model of `Path::is_dir()` (follows symlinks). -/
def isDirR (env : Env) (p : AbsPath) : Bool :=
  match resolvePath env.fs env.fuel p with
  | some rp =>
    match lookupRaw env.fs rp with
    | some (.dir ..) => true
    | _ => false
  | none => false

/-- The `for entry in entries` loop body of `search_directory`
(lines 271-313).  `dir` is the textual path being walked (used to build
`entry.path()` and to recurse), `rd` its resolved form (where the entry
nodes live).  `recur` is the recursive call (whose error, per the source's
`let _ = search_directory(..)`, is discarded but whose pushes survive).
The returned `Bool` is the `Result` of the loop: `false` means the `?` on a
metadata read fired, aborting the remaining entries. -/
def goEntries (env : Env)
    (recur : AbsPath → List FileSearchResult → Nat → List FileSearchResult × Bool)
    (dir rd : AbsPath) (q : String) (mx cur maxd : Nat) :
    List Comp → List FileSearchResult → List FileSearchResult × Bool
  | [], res => (res, true)
  | c :: cs, res =>
    if mx ≤ res.length then (res, true)
    else
      let name := compName c
      if isHidden name then goEntries env recur dir rd q mx cur maxd cs res
      else
        let step : Option (List FileSearchResult) :=
          if strContains (lowerStr env.lc name) q then
            match entryMeta env (rd ++ [c]) with
            | none => none
            | some (d, sz, md) => some (res ++ [⟨name, dir ++ [c], d, sz, md⟩])
          else some res
        match step with
        | none => (res, false)
        | some res1 =>
          let res2 :=
            if isDirR env (dir ++ [c]) && decide (cur < maxd) then
              (recur (dir ++ [c]) res1 (cur + 1)).1
            else res1
          goEntries env recur dir rd q mx cur maxd cs res2

/-- Model of `search_directory` (lines 256-316), with the `&mut Vec` accumulator made
explicit and the `Result<(), String>` flattened into the returned flag.
The extra `fuel` argument only bounds the recursion depth for Lean; every
call the source can make is reproduced with `fuel = maxd + 1`, since the
source recurses only while `cur < maxd`. -/
def search_directory (env : Env) :
    Nat → AbsPath → String → List FileSearchResult → Nat → Nat → Nat →
    List FileSearchResult × Bool
  | 0, _, _, res, _, _, _ => (res, false)
  | fuel + 1, dir, q, res, mx, cur, maxd =>
    if mx ≤ res.length || maxd < cur then (res, true)
    else
      match readDirM env dir with
      | none => (res, false)
      | some (rd, es) =>
        goEntries env (fun p r cd => search_directory env fuel p q r mx cd maxd)
          dir rd q mx cur maxd es res

/-! ## Sorting (`results.sort_by` with descending relevance) -/

/-- The sort key of `search_files` (lines 139-143): the relevance score of
the lowercased name against the lowercased query. -/
def scoreOf (lc : Char → List Char) (q : String) (r : FileSearchResult) : ℚ :=
  calculate_relevance_score (lowerStr lc r.name) q

/-- Stable descending insertion: `x` goes before the first element it
strictly beats, so equal scores keep their original order, exactly as
Rust's stable `sort_by` with comparator `b.partial_cmp(&a)`. -/
def insertDesc (lc : Char → List Char) (q : String) (x : FileSearchResult) :
    List FileSearchResult → List FileSearchResult
  | [] => [x]
  | y :: ys =>
    if scoreOf lc q y ≤ scoreOf lc q x then x :: y :: ys
    else y :: insertDesc lc q x ys

/-- Model of `results.sort_by(|a, b| b_score.partial_cmp(&a_score)..)`: stable sort,
descending by score. -/
def sortResults (lc : Char → List Char) (q : String) (res : List FileSearchResult) :
    List FileSearchResult :=
  res.foldr (insertDesc lc q) []

/-! ## `search_files` -/

/-- Model of `search_files` (lines 116-146): sanitize; empty query short-circuits to
`Ok(vec![])`; validate the root; clamp `max_results`; walk with
`max_depth = 3`; sort.  The walker fuel `4 = maxd + 1` is unreachable, so
the model is exact. -/
def search_files (env : Env) (query : String) (search_path : Option AbsPath)
    (max_results : Option Nat) : Option (List FileSearchResult) :=
  let sanitized := sanitize_search_query env.isAlnum env.isWs query
  if sanitized = "" then some []
  else
    match validate_and_normalize_search_path env search_path with
    | none => none
    | some search_dir =>
      let mx := min (max_results.getD 50) 100
      let query_lower := lowerStr env.lc sanitized
      match search_directory env 4 search_dir query_lower [] mx 0 3 with
      | (_, false) => none
      | (res, true) => some (sortResults env.lc query_lower res)

/-! ## Shared concrete worlds used by witnesses and counterexamples -/

/-- Shorthand for a UTF-8 component. -/
def u (s : String) : Comp := Comp.utf8 s

/-- A small healthy filesystem mirroring the fixture of the source's tests:
a home directory holding `test.txt`, `document.pdf` and `sub/nested.txt`. -/
def wfs : Fs :=
  [([], .dir [u "home"] true 0 0 true),
   ([u "home"], .dir [u "test.txt", u "document.pdf", u "sub"] true 10 1 true),
   ([u "home", u "test.txt"], .file 12 5 true),
   ([u "home", u "document.pdf"], .file 9 6 true),
   ([u "home", u "sub"], .dir [u "nested.txt"] true 11 2 true),
   ([u "home", u "sub", u "nested.txt"], .file 3 7 true)]

/-- The healthy witness environment over `wfs`; the abstract Unicode tables
are instantiated with the ASCII classifiers and the identity lowercasing
(all names and queries used with it are already ASCII-lowercase). -/
def wenv : Env :=
  { fs := wfs, fuel := 100, lc := fun c => [c], isAlnum := Char.isAlphanum,
    isWs := Char.isWhitespace, home := some [u "home"],
    documents := none, downloads := none, desktop := none }

/-! ## Helper lemmas -/

theorem strContains_empty_left (q : String) :
    strContains "" q = true ↔ q = "" := by
  constructor
  · intro h
    cases q with
    | mk data =>
      cases data with
      | nil => rfl
      | cons c cs => simp [strContains, listContainsSub, List.tails, List.isPrefixOf] at h
  · intro h; subst h; rfl

theorem sanitize_data (isAlnum isWs : Char → Bool) (q : String) :
    (sanitize_search_query isAlnum isWs q).data
      = q.data.filter (allowed_char isAlnum isWs) := rfl

theorem string_eq_empty_iff_data (s : String) : s = "" ↔ s.data = [] := by
  cases s with
  | mk data => simp [String.ext_iff]

/-! ## Claim C2 -/

/-- C2: `is_path_allowed(candidate)` returns `true` iff the candidate
equals, or is a component-wise descendant of, at least one allowed root
(Rust `Path::starts_with` compares whole path segments); in particular the
sibling `/home/alice2` of the allowed root `/home/alice` is *not* allowed,
so the check is not a raw text-prefix comparison. -/
theorem C2_is_path_allowed_componentwise :
    (∀ (allowed : List AbsPath) (p : AbsPath),
        is_path_allowed allowed p = true ↔
          ∃ r ∈ allowed, ∃ s : List Comp, p = r ++ s)
    ∧ is_path_allowed [[u "home", u "alice"]] [u "home", u "alice2"] = false := by
  constructor
  · intro allowed p
    simp only [is_path_allowed, List.any_eq_true, List.isPrefixOf_iff_prefix]
    constructor
    · rintro ⟨r, hr, t, ht⟩
      exact ⟨r, hr, t, ht.symm⟩
    · rintro ⟨r, hr, s, hs⟩
      exact ⟨r, hr, s, hs.symm⟩
  · decide

/-! ## Claim C6 -/

/-- C6: `sanitize_search_query` retains exactly the characters that are
alphanumeric, whitespace, one of the literal symbols
`_ - . ( ) [ ] { } + =`, or a CJK code point in `U+4E00`-`U+9FFF`, dropping
everything else, and the output is a subsequence of the input (order and
case of the retained characters preserved).  The two `std` Unicode classes
are universally quantified. -/
theorem C6_sanitize_charset :
    ∀ (isAlnum isWs : Char → Bool) (q : String),
      ((sanitize_search_query isAlnum isWs q).data
        = q.data.filter (fun c =>
            isAlnum c || isWs c ||
            ['_', '-', '.', '(', ')', '[', ']', '{', '}', '+', '='].contains c ||
            (decide ('一' ≤ c) && decide (c ≤ '鿿'))))
      ∧ (sanitize_search_query isAlnum isWs q).data.Sublist q.data := by
  intro isAlnum isWs q
  constructor
  · rw [sanitize_data]
    apply List.filter_congr
    intro c _
    simp [allowed_char, List.contains, Bool.or_assoc, Bool.beq_eq_decide_eq]
  · rw [sanitize_data]
    exact List.filter_sublist q.data

/-! ## Claim C8 -/

/-- C8: the relevance score is one mutually exclusive base tier (100 exact,
else 80 prefix, else 60 substring, else 0) plus a length bonus of
`20 / length` (0 for an empty name); in particular
`score("test.txt", "test") = 80 + 20/8 = 82.5`. -/
theorem C8_relevance_score :
    (∀ name query : String,
        calculate_relevance_score name query =
          (if name = query then (100 : ℚ)
           else if strStartsWith name query = true then 80
           else if strContains name query = true then 60
           else 0)
          + (if name = "" then 0 else 20 / (name.utf8ByteSize : ℚ)))
    ∧ calculate_relevance_score "test.txt" "test" = 82.5 := by
  constructor
  · intro name query
    simp only [calculate_relevance_score]
    split_ifs <;> ring
  · simp only [calculate_relevance_score]
    rw [if_neg (by decide : ¬("test.txt" : String) = "test"),
        if_pos (by decide : strStartsWith "test.txt" "test" = true),
        if_neg (by decide : ¬("test.txt" : String) = "")]
    have hlen : ("test.txt" : String).utf8ByteSize = 8 := rfl
    rw [hlen]
    norm_num

/-! ## Claim C3 -/

/-- C3: whenever the sanitized query is empty, `search_files` returns
`Ok([])` for every `search_path` (valid or not) and every `max_results`:
the empty query short-circuits before path validation and traversal, and no
error is possible. -/
theorem C3_empty_query_short_circuits :
    ∀ (env : Env) (query : String) (sp : Option AbsPath) (m : Option Nat),
      sanitize_search_query env.isAlnum env.isWs query = "" →
      search_files env query sp m = some [] := by
  intro env query sp m h
  simp [search_files, h]

/-- Witness for C3: a query of pure shell metacharacters sanitizes to the
empty string, and `search_files` succeeds with `[]` even though the
supplied search path does not exist in the (empty) filesystem. -/
theorem C3_witness :
    search_files
      { fs := [], fuel := 0, lc := fun c => [c], isAlnum := Char.isAlphanum,
        isWs := Char.isWhitespace, home := none, documents := none,
        downloads := none, desktop := none }
      "/;|<>" (some [u "nonexistent"]) (some 7) = some [] :=
  C3_empty_query_short_circuits _ "/;|<>" _ _ (by decide)

/-! ## Claim C4 -/

theorem length_insertDesc (lc : Char → List Char) (q : String) (x : FileSearchResult) :
    ∀ l : List FileSearchResult, (insertDesc lc q x l).length = l.length + 1 := by
  intro l
  induction l with
  | nil => rfl
  | cons y ys ih =>
    simp only [insertDesc]
    split
    · simp
    · simp [ih]

theorem length_sortResults (lc : Char → List Char) (q : String)
    (res : List FileSearchResult) : (sortResults lc q res).length = res.length := by
  induction res with
  | nil => rfl
  | cons r rs ih => simp [sortResults, List.foldr] at ih ⊢; simp [length_insertDesc, ih]

theorem goEntries_length_le (env : Env)
    (recur : AbsPath → List FileSearchResult → Nat → List FileSearchResult × Bool)
    (dir rd : AbsPath) (q : String) (mx cur maxd : Nat)
    (hrec : ∀ p r cd, ((recur p r cd).1).length ≤ max r.length mx) :
    ∀ (es : List Comp) (res : List FileSearchResult),
      ((goEntries env recur dir rd q mx cur maxd es res).1).length ≤ max res.length mx := by
  intro es
  induction es with
  | nil => intro res; simp [goEntries]
  | cons c cs ih =>
    intro res
    simp only [goEntries]
    split
    · exact Nat.le_max_left _ _
    · rename_i hlt
      split
      · exact ih res
      · split
        · exact Nat.le_max_left _ _
        · rename_i res1 hstep
          have hres1 : res1.length ≤ max res.length mx := by
            by_cases hm : strContains (lowerStr env.lc (compName c)) q = true
            · rw [if_pos hm] at hstep
              match hmeta : entryMeta env (rd ++ [c]) with
              | none => rw [hmeta] at hstep; exact absurd hstep (by simp)
              | some (d, sz, md) =>
                rw [hmeta] at hstep
                have : res1 = res ++ [⟨compName c, dir ++ [c], d, sz, md⟩] := by
                  simpa using hstep.symm
                subst this
                simp only [List.length_append, List.length_cons, List.length_nil]
                omega
            · rw [if_neg hm] at hstep
              have : res1 = res := by simpa using hstep.symm
              subst this
              exact Nat.le_max_left _ _
          have hres2 :
              (if isDirR env (dir ++ [c]) && decide (cur < maxd) then
                  (recur (dir ++ [c]) res1 (cur + 1)).1
                else res1).length ≤ max res.length mx := by
            split
            · exact le_trans (hrec _ _ _) (by omega)
            · exact hres1
          exact le_trans (ih _) (by omega)

theorem search_directory_length_le (env : Env) (q : String) (mx maxd : Nat) :
    ∀ (fuel : Nat) (dir : AbsPath) (res : List FileSearchResult) (cur : Nat),
      ((search_directory env fuel dir q res mx cur maxd).1).length ≤ max res.length mx := by
  intro fuel
  induction fuel with
  | zero => intro dir res cur; simp [search_directory]
  | succ n ih =>
    intro dir res cur
    simp only [search_directory]
    split
    · exact Nat.le_max_left _ _
    · split
      · exact Nat.le_max_left _ _
      · exact goEntries_length_le env _ dir _ q mx cur maxd (fun p r cd => ih p r cd) _ res

/-- C4: on every successful call, `search_files` returns at most
`min(max_results or 50, 100)` results (equivalently, at most
`clamp(max_results, 0, 100)` with default 50). -/
theorem C4_max_results_bound :
    ∀ (env : Env) (q : String) (sp : Option AbsPath) (m : Option Nat)
      (res : List FileSearchResult),
      search_files env q sp m = some res →
      res.length ≤ min (m.getD 50) 100 := by
  intro env q sp m res h
  simp only [search_files] at h
  split at h
  · cases h; simp
  · split at h
    · cases h
    · rename_i root hval
      split at h
      · cases h
      · rename_i out hrun
        cases h
        rw [length_sortResults]
        have := search_directory_length_le env
          (lowerStr env.lc (sanitize_search_query env.isAlnum env.isWs q))
          (min (m.getD 50) 100) 3 4 root [] 0
        rw [hrun] at this
        simpa using this

/-- Witness for C4: the healthy world returns exactly one result for query
`"test"` with `max_results = 10`, and `1 ≤ min 10 100`. -/
theorem C4_witness :
    search_files wenv "test" none (some 10) =
        some [⟨"test.txt", [u "home", u "test.txt"], false, 12, 5⟩]
      ∧ ([(⟨"test.txt", [u "home", u "test.txt"], false, 12, 5⟩ : FileSearchResult)]).length
          ≤ min ((some 10).getD 50) 100 :=
  ⟨by decide, C4_max_results_bound wenv "test" none (some 10) _ (by decide)⟩

/-! ## Membership structure of the walker's output (shared by C1, C5, C10) -/

/-- Shape of every entry the walker pushes: its path is its parent directory
extended by one component, its `name` is that component's (lossy) name, and
that name's lowercasing contains the query. -/
def pushedEntry (env : Env) (q : String) (r : FileSearchResult) : Prop :=
  ∃ pre c, r.path = pre ++ [c] ∧ r.name = compName c ∧
    strContains (lowerStr env.lc (compName c)) q = true

theorem mem_insertDesc (lc : Char → List Char) (q : String) (x r : FileSearchResult) :
    ∀ l : List FileSearchResult, r ∈ insertDesc lc q x l ↔ r = x ∨ r ∈ l := by
  intro l
  induction l with
  | nil => simp [insertDesc]
  | cons y ys ih =>
    simp only [insertDesc]
    split
    · simp [or_comm, or_assoc, List.mem_cons]
    · simp only [List.mem_cons, ih]
      tauto

theorem mem_sortResults (lc : Char → List Char) (q : String) (r : FileSearchResult)
    (res : List FileSearchResult) : r ∈ sortResults lc q res ↔ r ∈ res := by
  induction res with
  | nil => simp [sortResults]
  | cons x xs ih =>
    simp only [sortResults, List.foldr] at ih ⊢
    rw [mem_insertDesc, ih, List.mem_cons]

theorem goEntries_mem (env : Env)
    (recur : AbsPath → List FileSearchResult → Nat → List FileSearchResult × Bool)
    (dir rd : AbsPath) (q : String) (mx cur maxd : Nat)
    (hcur : cur ≤ maxd)
    (hrec : ∀ p r cd r', r' ∈ (recur p r cd).1 → r' ∈ r ∨
        ∃ s : List Comp, r'.path = p ++ s ∧ 1 ≤ s.length ∧ s.length + cd ≤ maxd + 1 ∧
          pushedEntry env q r') :
    ∀ (es : List Comp) (res : List FileSearchResult) (r' : FileSearchResult),
      r' ∈ (goEntries env recur dir rd q mx cur maxd es res).1 → r' ∈ res ∨
        ∃ s : List Comp, r'.path = dir ++ s ∧ 1 ≤ s.length ∧ s.length + cur ≤ maxd + 1 ∧
          pushedEntry env q r' := by
  intro es
  induction es with
  | nil => intro res r' h; simp [goEntries] at h; exact Or.inl h
  | cons c cs ih =>
    intro res r' h
    simp only [goEntries] at h
    split at h
    · exact Or.inl h
    · split at h
      · exact ih res r' h
      · split at h
        · exact Or.inl h
        · rename_i res1 hstep
          -- relate res1 to res
          have hres1 : ∀ x, x ∈ res1 → x ∈ res ∨
              (x.path = dir ++ [c] ∧ x.name = compName c ∧
               strContains (lowerStr env.lc (compName c)) q = true) := by
            intro x hx
            by_cases hm : strContains (lowerStr env.lc (compName c)) q = true
            · rw [if_pos hm] at hstep
              match hmeta : entryMeta env (rd ++ [c]) with
              | none => rw [hmeta] at hstep; exact absurd hstep (by simp)
              | some (d, sz, md) =>
                rw [hmeta] at hstep
                have he : res1 = res ++ [⟨compName c, dir ++ [c], d, sz, md⟩] := by
                  simpa using hstep.symm
                subst he
                rcases List.mem_append.mp hx with hx | hx
                · exact Or.inl hx
                · rcases List.mem_singleton.mp hx with rfl
                  exact Or.inr ⟨rfl, rfl, hm⟩
            · rw [if_neg hm] at hstep
              have he : res1 = res := by simpa using hstep.symm
              subst he
              exact Or.inl hx
          -- relate res2 to res1
          have hres2 : ∀ x,
              x ∈ (if isDirR env (dir ++ [c]) && decide (cur < maxd) then
                    (recur (dir ++ [c]) res1 (cur + 1)).1
                  else res1) →
              x ∈ res1 ∨
                ∃ s : List Comp, x.path = (dir ++ [c]) ++ s ∧ 1 ≤ s.length ∧
                  s.length + (cur + 1) ≤ maxd + 1 ∧ pushedEntry env q x := by
            intro x hx
            split at hx
            · exact hrec _ _ _ _ hx
            · exact Or.inl hx
          rcases ih _ r' h with hmem | hdeep
          · rcases hres2 r' hmem with hmem1 | ⟨s, hs, hs1, hs2, hpe⟩
            · rcases hres1 r' hmem1 with hmem0 | ⟨hp, hn, hq⟩
              · exact Or.inl hmem0
              · refine Or.inr ⟨[c], hp, by simp, by simp only [List.length_singleton]; omega, ?_⟩
                exact ⟨dir, c, hp, hn, hq⟩
            · refine Or.inr ⟨c :: s, by simpa using hs, by simp, ?_, hpe⟩
              simp only [List.length_cons]
              omega
          · exact Or.inr hdeep

theorem search_directory_mem (env : Env) (q : String) (mx maxd : Nat) :
    ∀ (fuel : Nat) (dir : AbsPath) (res : List FileSearchResult) (cur : Nat)
      (r' : FileSearchResult),
      r' ∈ (search_directory env fuel dir q res mx cur maxd).1 → r' ∈ res ∨
        ∃ s : List Comp, r'.path = dir ++ s ∧ 1 ≤ s.length ∧ s.length + cur ≤ maxd + 1 ∧
          pushedEntry env q r' := by
  intro fuel
  induction fuel with
  | zero => intro dir res cur r' h; simp [search_directory] at h; exact Or.inl h
  | succ n ih =>
    intro dir res cur r' h
    simp only [search_directory] at h
    split at h
    · exact Or.inl h
    · rename_i hguard
      split at h
      · exact Or.inl h
      · rename_i rd es hread
        have hcur : cur ≤ maxd := by
          simp only [Bool.or_eq_true, decide_eq_true_eq, not_or] at hguard
          omega
        exact goEntries_mem env _ dir rd q mx cur maxd hcur
          (fun p r cd r' hr' => ih p r cd r' hr') es res r' h

/-! ## Claim C5 -/

/-- A four-level world: `home/a/b/c/f.txt`, with `f.txt` at depth 4 below
the root `home`. -/
def dfs : Fs :=
  [([], .dir [u "home"] true 0 0 true),
   ([u "home"], .dir [u "a"] true 0 0 true),
   ([u "home", u "a"], .dir [u "b"] true 0 0 true),
   ([u "home", u "a", u "b"], .dir [u "c"] true 0 0 true),
   ([u "home", u "a", u "b", u "c"], .dir [u "f.txt"] true 0 0 true),
   ([u "home", u "a", u "b", u "c", u "f.txt"], .file 1 2 true)]

/-- Environment over the deep world `dfs`. -/
def denv : Env :=
  { fs := dfs, fuel := 100, lc := fun c => [c], isAlnum := Char.isAlphanum,
    isWs := Char.isWhitespace, home := some [u "home"],
    documents := none, downloads := none, desktop := none }

/-- Counterexample to C5: with `max_depth = 3` the walker, called exactly as
`search_files` calls it, returns the entry `home/a/b/c/f.txt`, which resides
at depth 4 below the root (the call at `current_depth = 3` still lists the
depth-3 directory and pushes its children). -/
theorem C5_counterexample :
    search_directory denv 4 [u "home"] "f" [] 10 0 3 =
        ([⟨"f.txt", [u "home", u "a", u "b", u "c", u "f.txt"], false, 1, 2⟩], true)
      ∧ ([u "home", u "a", u "b", u "c", u "f.txt"] : AbsPath).length
          - ([u "home"] : AbsPath).length = 4 :=
  ⟨by decide, by decide⟩

/-- C5 as amended: with `max_depth = 3`, every entry returned by
`search_directory` (beyond those already accumulated) lies at depth at most
`4 = max_depth + 1` below the root, and with `max_depth = 0` every such
entry is a direct child of the root (so entries residing in subdirectories
are excluded, as the claim's second half states). -/
theorem C5_amended_depth_bound :
    (∀ (env : Env) (fuel : Nat) (dir : AbsPath) (q : String)
        (res : List FileSearchResult) (mx : Nat) (r : FileSearchResult),
        r ∈ (search_directory env fuel dir q res mx 0 3).1 →
        r ∈ res ∨ ∃ s : List Comp, r.path = dir ++ s ∧ 1 ≤ s.length ∧ s.length ≤ 4)
    ∧ (∀ (env : Env) (fuel : Nat) (dir : AbsPath) (q : String)
        (res : List FileSearchResult) (mx : Nat) (r : FileSearchResult),
        r ∈ (search_directory env fuel dir q res mx 0 0).1 →
        r ∈ res ∨ ∃ c : Comp, r.path = dir ++ [c]) := by
  constructor
  · intro env fuel dir q res mx r h
    rcases search_directory_mem env q mx 3 fuel dir res 0 r h with h0 | ⟨s, hp, h1, h2, _⟩
    · exact Or.inl h0
    · exact Or.inr ⟨s, hp, h1, by omega⟩
  · intro env fuel dir q res mx r h
    rcases search_directory_mem env q mx 0 fuel dir res 0 r h with h0 | ⟨s, hp, h1, h2, _⟩
    · exact Or.inl h0
    · have hlen : s.length = 1 := by omega
      obtain ⟨c, rfl⟩ := List.length_eq_one.mp hlen
      exact Or.inr ⟨c, hp⟩

/-- Witness for C5 (amended): the depth-4 entry of the deep world satisfies
the amended bound with suffix `a/b/c/f.txt` of length `4`. -/
theorem C5_witness :
    (⟨"f.txt", [u "home", u "a", u "b", u "c", u "f.txt"], false, 1, 2⟩ : FileSearchResult)
        ∈ ([] : List FileSearchResult)
    ∨ ∃ s : List Comp,
        (⟨"f.txt", [u "home", u "a", u "b", u "c", u "f.txt"], false, 1, 2⟩
            : FileSearchResult).path
          = [u "home"] ++ s ∧ 1 ≤ s.length ∧ s.length ≤ 4 :=
  C5_amended_depth_bound.1 denv 4 [u "home"] "f" [] 10 _ (by decide)

/-! ## Claim C1 -/

/-- A world with a symlink escaping the sandbox: the allowed root `home`
contains `evil.txt`, a symlink to `/etc/passwd`. -/
def sfs : Fs :=
  [([], .dir [u "home", u "etc"] true 0 0 true),
   ([u "home"], .dir [u "evil.txt"] true 0 0 true),
   ([u "home", u "evil.txt"], .symlink [u "etc", u "passwd"]),
   ([u "etc"], .dir [u "passwd"] true 0 0 true),
   ([u "etc", u "passwd"], .file 99 3 true)]

/-- Environment over the symlink world `sfs`; the only allowed root is
`home`. -/
def senv : Env :=
  { fs := sfs, fuel := 100, lc := fun c => [c], isAlnum := Char.isAlphanum,
    isWs := Char.isWhitespace, home := some [u "home"],
    documents := none, downloads := none, desktop := none }

theorem validate_imp_allowed (env : Env) (sp : Option AbsPath) (root : AbsPath) :
    validate_and_normalize_search_path env sp = some root →
    is_path_allowed (get_allowed_search_paths env) root = true := by
  intro h
  simp only [validate_and_normalize_search_path] at h
  split at h
  · cases h
  · split at h
    · split at h
      · rename_i hif
        cases h
        exact hif
      · cases h
    · cases h

/-- Counterexample to C1: a successful `search_files` call returns the path
`home/evil.txt`, whose canonicalization is `etc/passwd`, which lies in no
member of the allowed-roots set computed by `get_allowed_search_paths` (the
code never canonicalizes returned entry paths, so a symlink under an
allowed root escapes). -/
theorem C1_counterexample :
    search_files senv "evil" none (some 10) =
        some [⟨"evil.txt", [u "home", u "evil.txt"], false, 0, 0⟩]
      ∧ resolvePath senv.fs senv.fuel [u "home", u "evil.txt"]
          = some [u "etc", u "passwd"]
      ∧ is_path_allowed (get_allowed_search_paths senv) [u "etc", u "passwd"] = false :=
  ⟨by decide, by decide, by decide⟩

/-- C1 as amended: every returned path extends the validated search root
component-wise (so the path as returned lies within an allowed root, the
root being canonical and allowed); the original claim's guarantee about the
*canonicalized* returned path fails only through symlinks below the root,
as `C1_counterexample` shows. -/
theorem C1_amended_textual_containment :
    ∀ (env : Env) (q : String) (sp : Option AbsPath) (m : Option Nat)
      (res : List FileSearchResult) (r : FileSearchResult),
      search_files env q sp m = some res → r ∈ res →
      ∃ root s, validate_and_normalize_search_path env sp = some root ∧
        is_path_allowed (get_allowed_search_paths env) root = true ∧
        r.path = root ++ s := by
  intro env q sp m res r h hr
  simp only [search_files] at h
  split at h
  · cases h
    simp at hr
  · split at h
    · cases h
    · rename_i root hval
      split at h
      · cases h
      · rename_i out hrun
        cases h
        rw [mem_sortResults] at hr
        have hm := search_directory_mem env
          (lowerStr env.lc (sanitize_search_query env.isAlnum env.isWs q))
          (min (m.getD 50) 100) 3 4 root [] 0 r (by rw [hrun]; exact hr)
        rcases hm with h0 | ⟨s, hp, _, _, _⟩
        · simp at h0
        · exact ⟨root, s, hval, validate_imp_allowed env sp root hval, hp⟩

/-- Witness for C1 (amended): the symlink entry returned in the symlink
world extends the validated root `home`. -/
theorem C1_witness :
    ∃ root s, validate_and_normalize_search_path senv none = some root ∧
      is_path_allowed (get_allowed_search_paths senv) root = true ∧
      (⟨"evil.txt", [u "home", u "evil.txt"], false, 0, 0⟩ : FileSearchResult).path
        = root ++ s :=
  C1_amended_textual_containment senv "evil" none (some 10)
    [⟨"evil.txt", [u "home", u "evil.txt"], false, 0, 0⟩] _ (by decide) (by decide)

/-! ## Claim C10 -/

/-- A world with a non-UTF-8-named directory below `home` holding a
matching file. -/
def rawfs : Fs :=
  [([], .dir [u "home"] true 0 0 true),
   ([u "home"], .dir [Comp.raw 0] true 0 0 true),
   ([u "home", Comp.raw 0], .dir [u "match.txt"] true 0 0 true),
   ([u "home", Comp.raw 0, u "match.txt"], .file 1 2 true)]

/-- Environment over the non-UTF-8 world `rawfs`. -/
def rawenv : Env :=
  { fs := rawfs, fuel := 100, lc := fun c => [c], isAlnum := Char.isAlphanum,
    isWs := Char.isWhitespace, home := some [u "home"],
    documents := none, downloads := none, desktop := none }

/-- C10: an entry whose name is not valid UTF-8 is treated as having the
empty name: for any non-empty query it is never returned (every returned
entry's final path component is a UTF-8 name equal to its `name` field),
it is not skipped as hidden, and when it is a directory it is still
recursed into — the concrete world returns the match found *inside* the
non-UTF-8 directory. -/
theorem C10_non_utf8_names :
    (∀ (env : Env) (fuel : Nat) (dir : AbsPath) (q : String)
        (res : List FileSearchResult) (mx cur maxd : Nat) (r : FileSearchResult),
        q ≠ "" →
        r ∈ (search_directory env fuel dir q res mx cur maxd).1 →
        r ∈ res ∨ ∃ pre s, r.path = pre ++ [Comp.utf8 s] ∧ r.name = s)
    ∧ search_files rawenv "match" none (some 10) =
        some [⟨"match.txt", [u "home", Comp.raw 0, u "match.txt"], false, 1, 2⟩] := by
  constructor
  · intro env fuel dir q res mx cur maxd r hq h
    rcases search_directory_mem env q mx maxd fuel dir res cur r h with
      h0 | ⟨s, hps, hs1, hs2, pre, c, hp, hn, hc⟩
    · exact Or.inl h0
    · cases c with
      | utf8 nm => exact Or.inr ⟨pre, nm, hp, hn⟩
      | raw i =>
        exfalso
        apply hq
        simp only [compName] at hc
        have hempty : lowerStr env.lc "" = "" := rfl
        rw [hempty] at hc
        exact (strContains_empty_left q).mp hc
  · decide

/-- Witness for C10: instantiating the universal half at the non-UTF-8
world shows the returned entry's last component is the UTF-8 name
`match.txt`. -/
theorem C10_witness :
    (⟨"match.txt", [u "home", Comp.raw 0, u "match.txt"], false, 1, 2⟩ : FileSearchResult)
        ∈ ([] : List FileSearchResult)
    ∨ ∃ pre s,
        (⟨"match.txt", [u "home", Comp.raw 0, u "match.txt"], false, 1, 2⟩
            : FileSearchResult).path = pre ++ [Comp.utf8 s]
        ∧ (⟨"match.txt", [u "home", Comp.raw 0, u "match.txt"], false, 1, 2⟩
            : FileSearchResult).name = s :=
  C10_non_utf8_names.1 rawenv 4 [u "home"] "match" [] 10 0 3 _ (by decide) (by decide)

/-! ## Claim C7 -/

attribute [local semireducible] Rat.mul Rat.add Rat.inv

/-- A world where the subdirectory `d` of `home` holds `k.txt` (healthy),
`a.txt` (matching, metadata read fails) and `b.txt` (healthy), in that
listing order, and `home` also directly holds `z.txt`. -/
def bfs : Fs :=
  [([], .dir [u "home"] true 0 0 true),
   ([u "home"], .dir [u "d", u "z.txt"] true 0 0 true),
   ([u "home", u "d"], .dir [u "k.txt", u "a.txt", u "b.txt"] true 0 0 true),
   ([u "home", u "d", u "k.txt"], .file 1 1 true),
   ([u "home", u "d", u "a.txt"], .file 2 2 false),
   ([u "home", u "d", u "b.txt"], .file 3 3 true),
   ([u "home", u "z.txt"], .file 4 4 true)]

/-- Environment over `bfs`. -/
def benv : Env :=
  { fs := bfs, fuel := 100, lc := fun c => [c], isAlnum := Char.isAlphanum,
    isWs := Char.isWhitespace, home := some [u "home"],
    documents := none, downloads := none, desktop := none }

/-- A world whose only root-level entry matches the query but has a failing
metadata read. -/
def brfs : Fs :=
  [([], .dir [u "home"] true 0 0 true),
   ([u "home"], .dir [u "bad.txt"] true 0 0 true),
   ([u "home", u "bad.txt"], .file 1 1 false)]

/-- Environment over `brfs`. -/
def brenv : Env :=
  { fs := brfs, fuel := 100, lc := fun c => [c], isAlnum := Char.isAlphanum,
    isWs := Char.isWhitespace, home := some [u "home"],
    documents := none, downloads := none, desktop := none }

/-- A world whose root home directory exists but cannot be listed. -/
def ufs : Fs :=
  [([], .dir [u "home"] true 0 0 true),
   ([u "home"], .dir [u "x.txt"] false 0 0 true),
   ([u "home", u "x.txt"], .file 1 1 true)]

/-- Environment over `ufs`. -/
def uenv : Env :=
  { fs := ufs, fuel := 100, lc := fun c => [c], isAlnum := Char.isAlphanum,
    isWs := Char.isWhitespace, home := some [u "home"],
    documents := none, downloads := none, desktop := none }

/-- Counterexample to C7: in the world `bfs` the search succeeds and
returns `k.txt` and `z.txt`, yet `b.txt` — a healthy, matching entry that
is neither the failing entry `a.txt` nor inside any failing subtree — is
omitted: a non-root metadata failure aborts the remainder of its whole
enclosing directory, not "only that subtree/entry". -/
theorem C7_counterexample :
    search_files benv "txt" none (some 10) =
        some [⟨"k.txt", [u "home", u "d", u "k.txt"], false, 1, 1⟩,
              ⟨"z.txt", [u "home", u "z.txt"], false, 4, 4⟩]
      ∧ strContains (lowerStr benv.lc "b.txt") "txt" = true
      ∧ (entryMeta benv [u "home", u "d", u "b.txt"]).isSome = true :=
  ⟨by decide, by decide, by decide⟩

theorem goEntries_ok (env : Env)
    (recur : AbsPath → List FileSearchResult → Nat → List FileSearchResult × Bool)
    (dir rd : AbsPath) (q : String) (mx cur maxd : Nat) :
    ∀ (es : List Comp) (res : List FileSearchResult),
      (∀ c ∈ es, isHidden (compName c) = false →
        strContains (lowerStr env.lc (compName c)) q = true →
        (entryMeta env (rd ++ [c])).isSome = true) →
      (goEntries env recur dir rd q mx cur maxd es res).2 = true := by
  intro es
  induction es with
  | nil => intro res _; rfl
  | cons c cs ih =>
    intro res hgood
    simp only [goEntries]
    split
    · rfl
    · split
      · exact ih res (fun x hx => hgood x (List.mem_cons_of_mem _ hx))
      · rename_i hhid
        split
        · rename_i hstep
          exfalso
          by_cases hm : strContains (lowerStr env.lc (compName c)) q = true
          · rw [if_pos hm] at hstep
            have hmetaOk := hgood c (List.mem_cons_self c cs)
              (by simpa using hhid) hm
            match hmeta : entryMeta env (rd ++ [c]) with
            | none => rw [hmeta] at hmetaOk; simp at hmetaOk
            | some x => rw [hmeta] at hstep; simp at hstep
          · rw [if_neg hm] at hstep
            simp at hstep
        · exact ih _ (fun x hx => hgood x (List.mem_cons_of_mem _ hx))

theorem search_directory_root_ok (env : Env) (root : AbsPath) (q : String)
    (mx : Nat) (rd : AbsPath) (es : List Comp)
    (hread : readDirM env root = some (rd, es))
    (hgood : ∀ c ∈ es, isHidden (compName c) = false →
      strContains (lowerStr env.lc (compName c)) q = true →
      (entryMeta env (rd ++ [c])).isSome = true) :
    (search_directory env 4 root q [] mx 0 3).2 = true := by
  simp only [search_directory]
  split
  · rfl
  · rw [hread]
    exact goEntries_ok env _ root rd q mx 0 3 es [] hgood

/-- C7 as amended: a failure to list the root directory is fatal to
`search_files` (whenever the result budget is positive, so the root is
listed at all), and a metadata failure on a root-level matched entry is
fatal (concrete world `brenv`); by contrast, whenever the root listing
succeeds and every non-hidden matching *direct* entry of the root has a
healthy metadata read, the whole search succeeds — every listing or
metadata failure strictly below the root is swallowed.  (What a swallowed
metadata failure omits is the remainder of its whole enclosing directory's
traversal, not only the failing entry/subtree — see `C7_counterexample`.) -/
theorem C7_amended_error_asymmetry :
    (∀ (env : Env) (q : String) (sp : Option AbsPath) (m : Option Nat) (root : AbsPath),
        sanitize_search_query env.isAlnum env.isWs q ≠ "" →
        validate_and_normalize_search_path env sp = some root →
        readDirM env root = none →
        0 < min (m.getD 50) 100 →
        search_files env q sp m = none)
    ∧ (∀ (env : Env) (q : String) (sp : Option AbsPath) (m : Option Nat)
        (root rd : AbsPath) (es : List Comp),
        sanitize_search_query env.isAlnum env.isWs q ≠ "" →
        validate_and_normalize_search_path env sp = some root →
        readDirM env root = some (rd, es) →
        (∀ c ∈ es, isHidden (compName c) = false →
          strContains (lowerStr env.lc (compName c))
            (lowerStr env.lc (sanitize_search_query env.isAlnum env.isWs q)) = true →
          (entryMeta env (rd ++ [c])).isSome = true) →
        (search_files env q sp m).isSome = true)
    ∧ search_files brenv "txt" none (some 10) = none := by
  refine ⟨?_, ?_, by decide⟩
  · intro env q sp m root hq hval hread hm
    simp only [search_files]
    rw [if_neg hq, hval]
    simp only [search_directory]
    rw [if_neg (by simp; omega)]
    rw [hread]
  · intro env q sp m root rd es hq hval hread hgood
    have hok := search_directory_root_ok env root
      (lowerStr env.lc (sanitize_search_query env.isAlnum env.isWs q))
      (min (m.getD 50) 100) rd es hread hgood
    match hrun : search_directory env 4 root
        (lowerStr env.lc (sanitize_search_query env.isAlnum env.isWs q))
        [] (min (m.getD 50) 100) 0 3 with
    | (out, flag) =>
      rw [hrun] at hok
      simp only at hok
      subst hok
      simp only [search_files]
      rw [if_neg hq, hval]
      simp only [hrun]
      rfl

/-- Witness for C7 (amended): an unlistable root makes the search fail in
the world `uenv`; a deep metadata failure is swallowed in the world `benv`
and the search still succeeds. -/
theorem C7_witness :
    search_files uenv "txt" none (some 10) = none
    ∧ (search_files benv "txt" none (some 10)).isSome = true :=
  ⟨C7_amended_error_asymmetry.1 uenv "txt" none (some 10) [u "home"]
      (by decide) (by decide) (by decide) (by decide),
   C7_amended_error_asymmetry.2.1 benv "txt" none (some 10) [u "home"] [u "home"]
      [u "d", u "z.txt"] (by decide) (by decide) (by decide) (by decide)⟩

/-! ## Claim C9 -/

theorem lowerStr_eq_empty_iff (lc : Char → List Char) (H0 : ∀ c, lc c ≠ [])
    (s : String) : lowerStr lc s = "" ↔ s = "" := by
  cases s with
  | mk d =>
    simp only [lowerStr, String.ext_iff]
    cases d with
    | nil => simp
    | cons c cs => simp [List.flatMap_cons, List.append_eq_nil, H0 c]

theorem sanitize_lower_comm (isAlnum isWs : Char → Bool) (lc : Char → List Char)
    (H1 : ∀ c c', c' ∈ lc c →
      allowed_char isAlnum isWs c' = allowed_char isAlnum isWs c)
    (q : String) :
    sanitize_search_query isAlnum isWs (lowerStr lc q)
      = lowerStr lc (sanitize_search_query isAlnum isWs q) := by
  simp only [sanitize_search_query, lowerStr]
  congr 1
  induction q.data with
  | nil => rfl
  | cons c cs ih =>
    simp only [List.flatMap_cons, List.filter_append, List.filter_cons]
    by_cases hc : allowed_char isAlnum isWs c = true
    · rw [if_pos hc]
      simp only [List.flatMap_cons]
      rw [ih]
      congr 1
      apply List.filter_eq_self.mpr
      intro a ha
      rw [H1 c a ha]
      exact hc
    · rw [if_neg hc]
      have hnil : List.filter (allowed_char isAlnum isWs) (lc c) = [] := by
        rw [List.filter_eq_nil_iff]
        intro a ha
        rw [H1 c a ha]
        simpa using hc
      rw [hnil, ih]
      simp

theorem lowerStr_idem (lc : Char → List Char)
    (H2 : ∀ c, (lc c).flatMap lc = lc c) (s : String) :
    lowerStr lc (lowerStr lc s) = lowerStr lc s := by
  simp only [lowerStr]
  congr 1
  induction s.data with
  | nil => rfl
  | cons c cs ih =>
    simp only [List.flatMap_cons, List.flatMap_append]
    rw [ih, H2 c]

/-- Lowercase expansions, instantiated with the real Unicode values of every
character occurring in the C9 counterexample: `İ` (U+0130) lowercases to
`i` followed by `U+0307` (COMBINING DOT ABOVE, per Unicode SpecialCasing);
every other character involved is already lowercase and maps to itself. -/
def lc9 : Char → List Char :=
  fun c => if c = 'İ' then ['i', '\u0307'] else [c]

/-- Rust `char::is_alphanumeric` on the characters occurring in the C9
counterexample: true on ASCII letters/digits and on `İ` (category Lu),
false on `U+0307` (category Mn, not `Other_Alphabetic`) and on ASCII
punctuation. -/
def isAlnum9 : Char → Bool :=
  fun c => c.isAlphanum || c = 'İ'

/-- A home directory holding `image.png`, as in the source's test fixture. -/
def ifs : Fs :=
  [([], .dir [u "home"] true 0 0 true),
   ([u "home"], .dir [u "image.png"] true 0 0 true),
   ([u "home", u "image.png"], .file 7 8 true)]

/-- Environment over `ifs`, with the Unicode tables of `lc9`/`isAlnum9`. -/
def env9 : Env :=
  { fs := ifs, fuel := 100, lc := lc9, isAlnum := isAlnum9,
    isWs := Char.isWhitespace, home := some [u "home"],
    documents := none, downloads := none, desktop := none }

/-- Counterexample to C9: at the query `İ` the two searches differ, both
succeeding.  The left call sanitizes to `İ` (alphanumeric) and matches
against `to_lowercase("İ") = "i\u0307"`, which `image.png` does not
contain; the right call receives `lowercase("İ") = "i\u0307"`, whose
sanitization drops the combining mark `U+0307` (not alphanumeric, not
whitespace, not a retained symbol), so it matches against `"i"` and returns
`image.png`.  So case-insensitively equivalent queries do not always yield
identical result sets. -/
theorem C9_counterexample :
    search_files env9 "İ" none (some 10) = some []
    ∧ search_files env9 (lowerStr env9.lc "İ") none (some 10) =
        some [⟨"image.png", [u "home", u "image.png"], false, 7, 8⟩]
    ∧ lowerStr env9.lc "İ" = "i\u0307" :=
  ⟨by decide, by decide, by decide⟩

/-- C9 as amended: `search_files(q, p, m) = search_files(lowercase(q), p, m)`
holds whenever the lowercasing's per-character expansions are nonempty,
stay within the same sanitizer character class, and are idempotent —
conditions satisfied by ASCII, CJK and the retained symbol characters, but
violated by characters such as `İ` whose lowercase gains a combining mark
of a different class (see `C9_counterexample`). -/
theorem C9_amended_case_insensitive :
    ∀ (env : Env),
      (∀ c, env.lc c ≠ []) →
      (∀ c c', c' ∈ env.lc c →
        allowed_char env.isAlnum env.isWs c' = allowed_char env.isAlnum env.isWs c) →
      (∀ c, (env.lc c).flatMap env.lc = env.lc c) →
      ∀ (q : String) (sp : Option AbsPath) (m : Option Nat),
        search_files env q sp m = search_files env (lowerStr env.lc q) sp m := by
  intro env H0 H1 H2 q sp m
  simp only [search_files]
  rw [sanitize_lower_comm env.isAlnum env.isWs env.lc H1 q]
  by_cases he : sanitize_search_query env.isAlnum env.isWs q = ""
  · rw [he]
    have h0 : lowerStr env.lc "" = "" := rfl
    simp [h0]
  · rw [if_neg he, if_neg (fun h => he ((lowerStr_eq_empty_iff env.lc H0 _).mp h))]
    rw [lowerStr_idem env.lc H2]

/-- Witness for C9 (amended): the singleton-expansion table of the healthy
world satisfies all three hypotheses, and the results for `"test"` and its
lowercasing coincide there. -/
theorem C9_witness :
    search_files wenv "test" none (some 5)
      = search_files wenv (lowerStr wenv.lc "test") none (some 5) :=
  C9_amended_case_insensitive wenv
    (fun c => by simp [wenv])
    (fun c c' h => by simp only [wenv, List.mem_singleton] at h; rw [h])
    (fun c => by simp [wenv])
    "test" none (some 5)

end LaunchRs
